import Mathlib

/-!
roadmapBackend: task manager, expense tracker and GitHub activity viewer.

A shallow embedding of the three command-line programs of the repository
(`src/main.go`, `src/Backend03/main.go`, `src/Backend02/main.go`) and the
properties of their record stores, command dispatch and output formatting.

Conventions of the embedding:

* Go's `int` is the 64-bit two's-complement integer: values are `Int`s in
  `[-2^63, 2^63)` and every arithmetic result goes through `wrapInt`.
* Go strings are modelled as Lean `String`s (valid UTF-8 is assumed).
* A function that prints and calls `saveTasks`/`saveExpenses` returns the lines
  it prints, in order, together with the slice it hands to the save function
  (`none` when it never calls it).
* The JSON file is modelled by what the load function can observe of it.
* `time.Now()` is an explicit argument.
-/

/-! ## Go primitives -/

namespace Go

/-- Smallest value of Go's 64-bit `int`. -/
def minInt : Int := -(2 ^ 63)

/-- Largest value of Go's 64-bit `int`. -/
def maxInt : Int := 2 ^ 63 - 1

/-- Two's-complement wrap-around of an integer result into the range of `int`. -/
def wrapInt (x : Int) : Int := (x + 2 ^ 63) % 2 ^ 64 - 2 ^ 63

/-- The `%d` verb of `fmt` on an `int`. -/
def fmtInt (i : Int) : String := toString i

/-- Go's `s[:len(s)-1]` on a string whose last byte is an ASCII character. -/
def dropLastByte (s : String) : String := ⟨s.data.dropLast⟩

/-- Go's `strconv.Atoi`: an optional sign, then one or more decimal digits, the
value within the range of `int`; `none` stands for a non-nil error. -/
def atoi (s : String) : Option Int :=
  let cs := s.data
  let neg := cs.head? == some '-'
  let ds := if cs.head? == some '-' || cs.head? == some '+' then cs.drop 1 else cs
  if ds.isEmpty || !ds.all Char.isDigit then none
  else
    let n : Int := ds.foldl (fun a c => 10 * a + ((c.toNat : Int) - 48)) 0
    let v := if neg then -n else n
    if v < minInt || v > maxInt then none else some v

end Go

/-! ## Task manager (`src/main.go`) -/

namespace TaskManager

open Go

/-- The `Task` struct. -/
structure Task where
  ID : Int
  Description : String
  Status : String
  CreatedAt : String
  UpdatedAt : String
deriving DecidableEq, Repr

/-- What `loadTasks` can observe of `tasks.json`: the file does not exist, it
cannot be read, its content is not the JSON of a task array, or it is. -/
inductive File where
  | missing
  | unreadable
  | malformed
  | json (tasks : List Task)
deriving DecidableEq, Repr

/-- What a function prints and what it passes to `saveTasks`. -/
structure Result where
  saved : Option (List Task)
  out : List String
deriving DecidableEq, Repr

/-- The function `loadTasks`: the slice and whether the error is non-nil. -/
def loadTasks : File → List Task × Bool
  | .missing => ([], false)
  | .unreadable => ([], true)
  | .malformed => ([], false)
  | .json tasks => (tasks, false)

/-- The function `getNextID`. -/
def getNextID (tasks : List Task) : Int :=
  if tasks.length = 0 then 1
  else
    let maxID := tasks.foldl (fun maxID task => if task.ID > maxID then task.ID else maxID) 0
    wrapInt (maxID + 1)

/-- Index of the first task whose `ID` is `id`: where the loops
`for i, task := range tasks { if task.ID == id { ... } }` stop. -/
def indexOfID : List Task → Int → Option Nat
  | [], _ => none
  | task :: rest, id => if task.ID = id then some 0 else (indexOfID rest id).map (· + 1)

/-- The function `addTask`. -/
def addTask (f : File) (description now : String) : Result :=
  let tasks := (loadTasks f).1
  let newTask : Task :=
    { ID := getNextID tasks, Description := description, Status := "todo",
      CreatedAt := now, UpdatedAt := now }
  let tasks := tasks ++ [newTask]
  { saved := some tasks, out := ["Task added with ID: " ++ fmtInt newTask.ID] }

/-- The function `updateTask`. -/
def updateTask (f : File) (id : Int) (description now : String) : Result :=
  let tasks := (loadTasks f).1
  match indexOfID tasks id with
  | some i =>
    let tasks := tasks.modify (fun t => { t with Description := description, UpdatedAt := now }) i
    { saved := some tasks, out := ["Task " ++ fmtInt id ++ " updated"] }
  | none => { saved := none, out := ["Task " ++ fmtInt id ++ " not found"] }

/-- The function `deleteTask`. -/
def deleteTask (f : File) (id : Int) : Result :=
  let tasks := (loadTasks f).1
  let initialLen := tasks.length
  let tasks :=
    match indexOfID tasks id with
    | some i => tasks.take i ++ tasks.drop (i + 1)
    | none => tasks
  if tasks.length < initialLen then
    { saved := some tasks, out := ["Task " ++ fmtInt id ++ " deleted"] }
  else
    { saved := none, out := ["Task " ++ fmtInt id ++ " not found"] }

/-- The slice `validStatuses` of `updateStatus`. -/
def validStatuses : List String := ["todo", "in-progress", "done"]

/-- The function `updateStatus`. -/
def updateStatus (f : File) (id : Int) (status now : String) : Result :=
  let tasks := (loadTasks f).1
  let valid := validStatuses.any (fun s => s == status)
  if !valid then
    { saved := none, out := ["Invalid status. Use: todo, in-progress, done"] }
  else
    match indexOfID tasks id with
    | some i =>
      let tasks := tasks.modify (fun t => { t with Status := status, UpdatedAt := now }) i
      { saved := some tasks,
        out := ["Task " ++ fmtInt id ++ " status updated to " ++ status] }
    | none => { saved := none, out := ["Task " ++ fmtInt id ++ " not found"] }

/-- The line `listTasks` prints for one task. -/
def taskLine (task : Task) : String :=
  "ID: " ++ fmtInt task.ID ++ ", Description: " ++ task.Description ++ ", Status: " ++
    task.Status ++ ", Created: " ++ task.CreatedAt ++ ", Updated: " ++ task.UpdatedAt

/-- The function `listTasks`. -/
def listTasks (f : File) (statusFilter : String) : Result :=
  let tasks := (loadTasks f).1
  if tasks.length = 0 then { saved := none, out := ["No tasks found"] }
  else
    let filtered :=
      if statusFilter ≠ "" then
        tasks.foldl (fun filtered task =>
          if task.Status = statusFilter then filtered ++ [task] else filtered) []
      else tasks
    { saved := none, out := filtered.map taskLine }

/-- The loops of `main` that build `description`, and the final
`description[:len(description)-1]`. -/
def joinArgs (words : List String) : String :=
  dropLastByte (words.foldl (fun description word => description ++ (word ++ " ")) "")

/-- The function `main`, on `os.Args`. -/
def main (args : List String) (now : String) (f : File) : Result :=
  if args.length < 2 then
    { saved := none,
      out := ["Usage: ./task_manager <command> [args]",
        "Commands: add, update, delete, in-progress, done, list, list-done, list-todo, list-in-progress"] }
  else
    let command := args.getD 1 ""
    if command = "add" then
      if args.length < 3 then
        { saved := none, out := ["Usage: ./task_manager add <description>"] }
      else addTask f (joinArgs (args.drop 2)) now
    else if command = "update" then
      if args.length < 4 then
        { saved := none, out := ["Usage: ./task_manager update <id> <description>"] }
      else
        match atoi (args.getD 2 "") with
        | none => { saved := none, out := ["Task ID must be a number"] }
        | some id => updateTask f id (joinArgs (args.drop 3)) now
    else if command = "delete" || command = "in-progress" || command = "done" then
      if args.length ≠ 3 then
        { saved := none, out := ["Usage: ./task_manager " ++ command ++ " <id>"] }
      else
        match atoi (args.getD 2 "") with
        | none => { saved := none, out := ["Task ID must be a number"] }
        | some id =>
          if command = "delete" then deleteTask f id
          else if command = "in-progress" then updateStatus f id "in-progress" now
          else updateStatus f id "done" now
    else if command = "list" then listTasks f ""
    else if command = "list-done" then listTasks f "done"
    else if command = "list-todo" then listTasks f "todo"
    else if command = "list-in-progress" then listTasks f "in-progress"
    else { saved := none, out := ["Invalid command"] }

/-! ### The store as a state machine -/

/-- One call of a store-mutating function of the task manager. -/
inductive Op where
  | add (description now : String)
  | update (id : Int) (description now : String)
  | delete (id : Int)
  | status (id : Int) (status now : String)
deriving DecidableEq, Repr

/-- How `os.WriteFile` inside `saveTasks` ends (its error is ignored by every
caller): the file is rewritten; the call fails before the file is opened and
the file keeps its content; or the call fails after truncation and leaves a
strict prefix of the JSON text, which does not parse. -/
inductive WriteResult where
  | ok
  | failedKept
  | failedTruncated
deriving DecidableEq, Repr

/-- The call of the function an `Op` names. -/
def Op.call (op : Op) (f : File) : Result :=
  match op with
  | .add description now => addTask f description now
  | .update id description now => updateTask f id description now
  | .delete id => deleteTask f id
  | .status id s now => updateStatus f id s now

/-- The file after a function returned `r`, its write ending as `w`. -/
def commit (f : File) (r : Result) (w : WriteResult) : File :=
  match r.saved with
  | none => f
  | some tasks =>
    match w with
    | .ok => .json tasks
    | .failedKept => f
    | .failedTruncated => .malformed

/-- One operation on the file. -/
def step (f : File) (x : Op × WriteResult) : File := commit f (Op.call x.1 f) x.2

/-- A sequence of operations on the file, one process after the other. -/
def run (f : File) (xs : List (Op × WriteResult)) : File := xs.foldl step f

/-- The tasks a following process loads from the file. -/
def stored (f : File) : List Task := (loadTasks f).1

/-- Whether an operation is an `add`. -/
def Op.isAdd : Op → Bool
  | .add _ _ => true
  | _ => false

/-- Number of `add` operations in a sequence. -/
def countAdds (xs : List (Op × WriteResult)) : Nat := (xs.filter (fun x => Op.isAdd x.1)).length

/-- A task with the given ID, as `addTask` creates it from an empty
description at an empty time stamp. -/
def blankTask (id : Int) : Task :=
  { ID := id, Description := "", Status := "todo", CreatedAt := "", UpdatedAt := "" }

/-- The operations `add`, `delete k`, `add`, `delete (k+1)`, ... (`n` pairs),
every write succeeding: on a store holding only ID `k` each pair adds ID
`k+1` and deletes ID `k`. -/
def climb : Nat → Int → List (Op × WriteResult)
  | 0, _ => []
  | n + 1, k => (.add "" "", .ok) :: (.delete k, .ok) :: climb n (k + 1)

/-- An `add`, then `n` pairs of `add` and `delete` that keep one task and raise
its ID by one, then a last `add`. -/
def overflowRun (n : Nat) : List (Op × WriteResult) :=
  (.add "" "", .ok) :: climb n 1 ++ [(.add "" "", .ok)]

end TaskManager

/-! ## Expense tracker (`src/Backend03/main.go`) -/

namespace ExpenseTracker

open Go

/-- The `Expense` struct, over the types `F` of `float64` and `T` of
`time.Time`. -/
structure Expense (F T : Type) where
  ID : Int
  Date : T
  Description : String
  Amount : F
deriving DecidableEq, Repr

/-- The standard-library functions the program calls on `float64`, `time.Time`
and `flag.FlagSet` values. A flag set is created with `flag.ExitOnError`, so
`Parse` either returns with the flag values set (`.ok`) or ends the process
with an exit code (`.error`), having written to standard error only. -/
structure Lib (F T : Type) where
  /-- The literals `0` and `0.0` as a `float64`. -/
  zero : F
  /-- The sum `total + e.Amount`. -/
  add : F → F → F
  /-- The comparison `x <= 0`. -/
  leZero : F → Bool
  /-- The verb `%.2f`. -/
  fmt2 : F → String
  /-- The method `Year()`. -/
  year : T → Int
  /-- The method `Month()`, converted to `int`. -/
  month : T → Int
  /-- The call `Format("2006-01-02")`. -/
  fmtDate : T → String
  /-- The call `addCmd.Parse`, then `*addDesc` and `*addAmt`. -/
  parseAdd : List String → Except Int (String × F)
  /-- The call `deleteCmd.Parse`, then `*deleteID`. -/
  parseDelete : List String → Except Int Int
  /-- The call `listCmd.Parse`. -/
  parseList : List String → Except Int Unit
  /-- The call `summaryCmd.Parse`, then `*summaryMonth`. -/
  parseSummary : List String → Except Int Int

/-- What `loadExpenses` can observe of `expenses.json`; an error carries its
text. -/
inductive File (F T : Type) where
  | missing
  | unreadable (err : String)
  | malformed (err : String)
  | json (expenses : List (Expense F T))
deriving DecidableEq, Repr

/-- What the process prints on standard output, what it passes to
`saveExpenses` (`none` when it never calls it), and its exit code. -/
structure Result (F T : Type) where
  saved : Option (List (Expense F T))
  out : List String
  exit : Int
deriving DecidableEq, Repr

/-- The function `loadExpenses`: the slice and the error, if any. -/
def loadExpenses {F T : Type} : File F T → List (Expense F T) × Option String
  | .missing => ([], none)
  | .unreadable err => ([], some err)
  | .malformed err => ([], some err)
  | .json expenses => (expenses, none)

/-- Index of the first expense whose `ID` is `id`: where the loop
`for i, e := range expenses { if e.ID == *deleteID { ... } }` stops. -/
def indexOfID {F T : Type} : List (Expense F T) → Int → Option Nat
  | [], _ => none
  | e :: rest, id => if e.ID = id then some 0 else (indexOfID rest id).map (· + 1)

/-- The body of `case "add"` after `addCmd.Parse`; `saveErr` is the error
`saveExpenses` returns. -/
def caseAdd {F T : Type} (L : Lib F T) (addDesc : String) (addAmt : F) (now : T)
    (f : File F T) (saveErr : Option String) : Result F T :=
  if addDesc = "" || L.leZero addAmt then
    { saved := none, out := ["Error: description and positive amount are required"], exit := 1 }
  else
    match loadExpenses f with
    | (_, some err) => { saved := none, out := ["Error loading expenses: " ++ err], exit := 1 }
    | (expenses, none) =>
      let id := wrapInt ((expenses.length : Int) + 1)
      let expense : Expense F T :=
        { ID := id, Date := now, Description := addDesc, Amount := addAmt }
      let expenses := expenses ++ [expense]
      match saveErr with
      | some err =>
        { saved := some expenses, out := ["Error saving expenses: " ++ err], exit := 1 }
      | none =>
        { saved := some expenses,
          out := ["Expense added successfully (ID: " ++ fmtInt id ++ ")"], exit := 0 }

/-- The body of `case "delete"` after `deleteCmd.Parse`. -/
def caseDelete {F T : Type} (deleteID : Int) (f : File F T) (saveErr : Option String) :
    Result F T :=
  match loadExpenses f with
  | (_, some err) => { saved := none, out := ["Error loading expenses: " ++ err], exit := 1 }
  | (expenses, none) =>
    match indexOfID expenses deleteID with
    | none => { saved := none, out := ["Error: expense ID not found"], exit := 1 }
    | some i =>
      let expenses := expenses.take i ++ expenses.drop (i + 1)
      match saveErr with
      | some err =>
        { saved := some expenses, out := ["Error saving expenses: " ++ err], exit := 1 }
      | none => { saved := some expenses, out := ["Expense deleted successfully"], exit := 0 }

/-- The verb `%-12s`: padding with spaces on the right up to width 12. -/
def pad12 (s : String) : String := s ++ String.mk (List.replicate (12 - s.length) ' ')

/-- The line `case "list"` prints for one expense. -/
def expenseLine {F T : Type} (L : Lib F T) (e : Expense F T) : String :=
  fmtInt e.ID ++ "   " ++ L.fmtDate e.Date ++ "  " ++ pad12 e.Description ++ " $" ++
    L.fmt2 e.Amount

/-- The body of `case "list"` after `listCmd.Parse`. -/
def caseList {F T : Type} (L : Lib F T) (f : File F T) : Result F T :=
  match loadExpenses f with
  | (_, some err) => { saved := none, out := ["Error loading expenses: " ++ err], exit := 1 }
  | (expenses, none) =>
    if expenses.length = 0 then { saved := none, out := ["No expenses found"], exit := 0 }
    else
      { saved := none,
        out := "ID  Date       Description  Amount" :: expenses.map (expenseLine L),
        exit := 0 }

/-- The method `String()` of `time.Month`. -/
def monthName (m : Int) : String :=
  if m = 1 then "January" else if m = 2 then "February" else if m = 3 then "March"
  else if m = 4 then "April" else if m = 5 then "May" else if m = 6 then "June"
  else if m = 7 then "July" else if m = 8 then "August" else if m = 9 then "September"
  else if m = 10 then "October" else if m = 11 then "November"
  else if m = 12 then "December"
  else "%!Month(" ++ fmtInt m ++ ")"

/-- The body of `case "summary"` after `summaryCmd.Parse`. -/
def caseSummary {F T : Type} (L : Lib F T) (summaryMonth : Int) (now : T) (f : File F T) :
    Result F T :=
  match loadExpenses f with
  | (_, some err) => { saved := none, out := ["Error loading expenses: " ++ err], exit := 1 }
  | (expenses, none) =>
    let total := L.zero
    if summaryMonth > 0 then
      if summaryMonth < 1 || summaryMonth > 12 then
        { saved := none, out := ["Error: month must be between 1 and 12"], exit := 1 }
      else
        let total := expenses.foldl (fun total e =>
          if L.year e.Date = L.year now && L.month e.Date = summaryMonth then
            L.add total e.Amount
          else total) total
        { saved := none,
          out := ["Total expenses for " ++ monthName summaryMonth ++ ": $" ++ L.fmt2 total],
          exit := 0 }
    else
      let total := expenses.foldl (fun total e => L.add total e.Amount) total
      { saved := none, out := ["Total expenses: $" ++ L.fmt2 total], exit := 0 }

/-- The function `main`, on `os.Args`. -/
def main {F T : Type} (L : Lib F T) (args : List String) (now : T) (f : File F T)
    (saveErr : Option String) : Result F T :=
  if args.length < 2 then
    { saved := none,
      out := ["Usage: expense-tracker <command> [options]", "Commands: add, delete, list, summary"],
      exit := 1 }
  else
    let command := args.getD 1 ""
    if command = "add" then
      match L.parseAdd (args.drop 2) with
      | .error code => { saved := none, out := [], exit := code }
      | .ok (addDesc, addAmt) => caseAdd L addDesc addAmt now f saveErr
    else if command = "delete" then
      match L.parseDelete (args.drop 2) with
      | .error code => { saved := none, out := [], exit := code }
      | .ok deleteID => caseDelete deleteID f saveErr
    else if command = "list" then
      match L.parseList (args.drop 2) with
      | .error code => { saved := none, out := [], exit := code }
      | .ok _ => caseList L f
    else if command = "summary" then
      match L.parseSummary (args.drop 2) with
      | .error code => { saved := none, out := [], exit := code }
      | .ok summaryMonth => caseSummary L summaryMonth now f
    else
      { saved := none, out := ["Unknown command. Use: add, delete, list, summary"], exit := 1 }

/-! ### The store as a state machine -/

/-- A successful `add` or `delete` command, by its parsed flag values. -/
inductive Cmd (F T : Type) where
  | add (description : String) (amount : F) (now : T)
  | delete (id : Int)
deriving DecidableEq, Repr

/-- The run of a command whose `saveExpenses` call, if any, succeeds. -/
def Cmd.call {F T : Type} (c : Cmd F T) (L : Lib F T) (f : File F T) : Result F T :=
  match c with
  | .add description amount now => caseAdd L description amount now f none
  | .delete id => caseDelete id f none

/-- The file after a command whose write succeeded. -/
def step {F T : Type} (L : Lib F T) (f : File F T) (c : Cmd F T) : File F T :=
  match (Cmd.call c L f).saved with
  | none => f
  | some expenses => .json expenses

/-- A sequence of commands, one process after the other. -/
def run {F T : Type} (L : Lib F T) (f : File F T) (cs : List (Cmd F T)) : File F T :=
  cs.foldl (step L) f

/-- The expenses a following process loads from the file. -/
def stored {F T : Type} (f : File F T) : List (Expense F T) := (loadExpenses f).1

/-- An instance of the library over integer amounts (cents) and times given
as year and month, for evaluating the program on concrete inputs: the flag
parsers understand `--description d --amount n`, `--id n` and `--month n`. -/
def sampleLib : Lib Int (Int × Int) where
  zero := 0
  add := fun a b => a + b
  leZero := fun a => decide (a ≤ 0)
  fmt2 := fun a => fmtInt (a / 100) ++ "." ++ fmtInt (a % 100 / 10) ++ fmtInt (a % 10)
  year := fun t => t.1
  month := fun t => t.2
  fmtDate := fun t => fmtInt t.1 ++ "-" ++ fmtInt t.2
  parseAdd := fun args =>
    match args with
    | ["--description", d, "--amount", a] =>
      match atoi a with
      | some n => .ok (d, n)
      | none => .error 2
    | _ => .ok ("", 0)
  parseDelete := fun args =>
    match args with
    | ["--id", a] =>
      match atoi a with
      | some n => .ok n
      | none => .error 2
    | _ => .ok 0
  parseList := fun _ => .ok ()
  parseSummary := fun args =>
    match args with
    | ["--month", a] =>
      match atoi a with
      | some n => .ok n
      | none => .error 2
    | _ => .ok 0

end ExpenseTracker

/-! ## GitHub activity viewer (`src/Backend02/main.go`) -/

namespace GithubActivity

open Go

/-- The field `Repo` of `Event`. -/
structure Repo where
  Name : String
deriving DecidableEq, Repr

/-- An element of the field `Commits` of the payload. -/
structure Commit where
  Message : String
deriving DecidableEq, Repr

/-- The field `Payload` of `Event`. -/
structure Payload where
  Commits : List Commit
deriving DecidableEq, Repr

/-- The `Event` struct; its field `Type` is named `EventType` here, `Type` being
a reserved word. -/
structure Event where
  EventType : String
  Repo : Repo
  Payload : Payload
deriving DecidableEq, Repr

/-- The body of the loop over `events`: the lines one event makes the program
print. -/
def eventLines (event : Event) : List String :=
  if event.EventType = "PushEvent" then
    let commitCount : Int := event.Payload.Commits.length
    if commitCount > 0 then
      ["Pushed " ++ fmtInt commitCount ++ " commits to " ++ event.Repo.Name]
    else []
  else if event.EventType = "IssuesEvent" then ["Opened a new issue in " ++ event.Repo.Name]
  else if event.EventType = "WatchEvent" then ["Starred " ++ event.Repo.Name]
  else ["Performed " ++ event.EventType ++ " on " ++ event.Repo.Name]

/-- The loop `for _, event := range events` of `main`: everything it prints. -/
def display (events : List Event) : List String :=
  events.foldl (fun out event => out ++ eventLines event) []

/-- What `main` gets from `http.Get`, `io.ReadAll` and `json.Unmarshal`. -/
inductive Response where
  | fetchError (err : String)
  | badStatus (code : Int)
  | readError (err : String)
  | parseError (err : String)
  | events (events : List Event)
deriving DecidableEq, Repr

/-- The function `main`, on `os.Args` and the response to its request: the lines
printed and the exit code. -/
def main (args : List String) (resp : Response) : List String × Int :=
  if args.length < 2 then (["Usage: github-activity <username>"], 1)
  else
    match resp with
    | .fetchError err => (["Error fetching data: " ++ err], 1)
    | .badStatus code => (["Error: GitHub API returned status " ++ fmtInt code], 1)
    | .readError err => (["Error reading response: " ++ err], 1)
    | .parseError err => (["Error parsing JSON: " ++ err], 1)
    | .events events => (display events, 0)

end GithubActivity


namespace TaskManager
open Go

theorem indexOfID_eq_none {tasks : List Task} {id : Int} :
    indexOfID tasks id = none ↔ ∀ t ∈ tasks, t.ID ≠ id := by
  induction tasks with
  | nil => simp [indexOfID]
  | cons t rest ih =>
    by_cases h : t.ID = id
    · simp [indexOfID, h]
    · simp [indexOfID, h, ih]

theorem indexOfID_eq_some {tasks : List Task} {id : Int} {i : Nat}
    (h : indexOfID tasks id = some i) :
    ∃ pre t post, tasks = pre ++ t :: post ∧ pre.length = i ∧ t.ID = id ∧
      ∀ u ∈ pre, u.ID ≠ id := by
  induction tasks generalizing i with
  | nil => simp [indexOfID] at h
  | cons t rest ih =>
    by_cases ht : t.ID = id
    · simp [indexOfID, ht] at h
      exact ⟨[], t, rest, by simp, by simp [h], ht, by simp⟩
    · simp [indexOfID, ht] at h
      obtain ⟨j, hj, rfl⟩ := h
      obtain ⟨pre, u, post, rfl, hlen, hu, hpre⟩ := ih hj
      refine ⟨t :: pre, u, post, by simp, by simp [hlen], hu, ?_⟩
      intro v hv
      rcases List.mem_cons.1 hv with rfl | hv
      · exact ht
      · exact hpre v hv

theorem foldl_maxID (tasks : List Task) (a : Int) :
    a ≤ tasks.foldl (fun maxID task => if task.ID > maxID then task.ID else maxID) a ∧
    (∀ t ∈ tasks, t.ID ≤ tasks.foldl (fun maxID task => if task.ID > maxID then task.ID else maxID) a) ∧
    (tasks.foldl (fun maxID task => if task.ID > maxID then task.ID else maxID) a = a ∨
      ∃ t ∈ tasks, t.ID = tasks.foldl (fun maxID task => if task.ID > maxID then task.ID else maxID) a) := by
  induction tasks generalizing a with
  | nil => simp
  | cons t rest ih =>
    simp only [List.foldl_cons, List.mem_cons, forall_eq_or_imp, exists_eq_or_imp]
    obtain ⟨h1, h2, h3⟩ := ih (if t.ID > a then t.ID else a)
    split_ifs at h1 h2 h3 ⊢ with hc
    · refine ⟨by omega, ⟨h1, h2⟩, ?_⟩
      rcases h3 with h3 | h3
      · right; left; exact h3.symm
      · right; right; exact h3
    · refine ⟨h1, ⟨by omega, h2⟩, ?_⟩
      rcases h3 with h3 | h3
      · left; exact h3
      · right; right; exact h3

theorem wrapInt_of_range {x : Int} (h1 : minInt ≤ x) (h2 : x ≤ maxInt) : wrapInt x = x := by
  unfold wrapInt
  unfold minInt at h1
  unfold maxInt at h2
  omega

/-- The loop of `getNextID` computes `max 0 m` when `m` is the largest ID of
the slice. -/
theorem foldl_maxID_eq {tasks : List Task} {m : Int} (hm : ∃ t ∈ tasks, t.ID = m)
    (hmax : ∀ u ∈ tasks, u.ID ≤ m) :
    tasks.foldl (fun maxID task => if task.ID > maxID then task.ID else maxID) 0 = max 0 m := by
  obtain ⟨h1, h2, h3⟩ := foldl_maxID tasks 0
  obtain ⟨t, ht, rfl⟩ := hm
  have h4 := h2 t ht
  rcases h3 with h3 | ⟨u, hu, h3⟩
  · rw [h3] at h4 ⊢
    omega
  · have h5 := hmax u hu
    rw [← h3] at h1 h4 ⊢
    omega

/-- C1 (as amended): `getNextID` returns 1 for the empty slice; for a non-empty
slice whose largest ID is `m` it returns `m + 1` when `0 ≤ m < 2^63 - 1`, it
returns 1 when `m` is negative (the running maximum starts at 0), and it wraps
around to `-2^63` when `m` is the largest `int`. -/
theorem getNextID_spec :
    getNextID [] = 1 ∧
    ∀ (tasks : List Task) (m : Int), (∃ t ∈ tasks, t.ID = m) → (∀ u ∈ tasks, u.ID ≤ m) →
      (0 ≤ m → m < maxInt → getNextID tasks = m + 1) ∧
      (m < 0 → getNextID tasks = 1) ∧
      (m = maxInt → getNextID tasks = minInt) := by
  refine ⟨by decide, ?_⟩
  intro tasks m hm hmax
  have hne : tasks.length ≠ 0 := by
    obtain ⟨t, ht, -⟩ := hm
    intro h
    rw [List.length_eq_zero] at h
    simp [h] at ht
  have hfold := foldl_maxID_eq hm hmax
  unfold getNextID
  rw [if_neg hne]
  simp only [hfold]
  refine ⟨?_, ?_, ?_⟩
  · intro h0 h1
    rw [max_eq_right h0]
    apply wrapInt_of_range
    · unfold minInt; omega
    · unfold maxInt at h1 ⊢; omega
  · intro h0
    rw [max_eq_left (by omega)]
    decide
  · intro h0
    subst h0
    decide

/-- C1, an instance: on the slice `[3, 7, 5]` the next ID is 8, on `[-5]` it is 1. -/
theorem getNextID_spec_witness :
    getNextID [⟨3, "a", "todo", "", ""⟩, ⟨7, "b", "done", "", ""⟩, ⟨5, "c", "todo", "", ""⟩] = 7 + 1 ∧
    getNextID [⟨-5, "a", "todo", "", ""⟩] = 1 :=
  ⟨((getNextID_spec.2 [⟨3, "a", "todo", "", ""⟩, ⟨7, "b", "done", "", ""⟩, ⟨5, "c", "todo", "", ""⟩] 7
      ⟨⟨7, "b", "done", "", ""⟩, by decide, rfl⟩ (by decide)).1 (by decide) (by decide)),
   ((getNextID_spec.2 [⟨-5, "a", "todo", "", ""⟩] (-5)
      ⟨⟨-5, "a", "todo", "", ""⟩, by decide, rfl⟩ (by decide)).2.1 (by decide))⟩

/-- C1 as stated fails: the only task of the slice has ID -5, the largest ID
plus 1 is -4, and `getNextID` returns 1. -/
theorem getNextID_negative_ids :
    getNextID [⟨-5, "a", "todo", "", ""⟩] = 1 ∧
    getNextID [⟨-5, "a", "todo", "", ""⟩] ≠ -5 + 1 := by
  decide

theorem indexOfID_isSome {tasks : List Task} {id : Int} (h : ∃ t ∈ tasks, t.ID = id) :
    ∃ pre t post, tasks = pre ++ t :: post ∧ indexOfID tasks id = some pre.length ∧
      t.ID = id ∧ ∀ u ∈ pre, u.ID ≠ id := by
  cases hi : indexOfID tasks id with
  | none =>
    obtain ⟨t, ht, hid⟩ := h
    exact absurd hid (indexOfID_eq_none.1 hi t ht)
  | some i =>
    obtain ⟨pre, t, post, h1, h2, h3, h4⟩ := indexOfID_eq_some hi
    exact ⟨pre, t, post, h1, by rw [h2], h3, h4⟩

theorem take_drop_at (pre post : List Task) (t : Task) :
    (pre ++ t :: post).take pre.length ++ (pre ++ t :: post).drop (pre.length + 1) =
      pre ++ post := by
  induction pre with
  | nil => simp
  | cons a pre ih => simp

theorem modify_at (g : Task → Task) (pre post : List Task) (t : Task) :
    (pre ++ t :: post).modify g pre.length = pre ++ g t :: post := by
  induction pre with
  | nil => simp
  | cons a pre ih => simpa using ih

theorem commit_none {f : File} {r : Result} (h : r.saved = none) (w : WriteResult) :
    commit f r w = f := by
  simp [commit, h]

/-- C4: `deleteTask` on a store holding a task with the given ID passes to
`saveTasks` the store without the first such task, the others in their order
(this is what the file holds after the write, and with unique IDs no remaining
task has that ID), and prints "Task <id> deleted";
on a store holding no such task it saves nothing, leaves the file as it is and
prints "Task <id> not found". On IDs 1, 2, 3, deleting 2 leaves 1, 3. -/
theorem deleteTask_spec (f : File) (id : Int) :
    ((∃ t ∈ stored f, t.ID = id) →
      ∃ pre t post, stored f = pre ++ t :: post ∧ t.ID = id ∧ (∀ u ∈ pre, u.ID ≠ id) ∧
        deleteTask f id = ⟨some (pre ++ post), ["Task " ++ fmtInt id ++ " deleted"]⟩ ∧
        stored (commit f (deleteTask f id) .ok) = pre ++ post ∧
        (((stored f).map Task.ID).Nodup → ∀ u ∈ pre ++ post, u.ID ≠ id)) ∧
    ((∀ t ∈ stored f, t.ID ≠ id) →
      deleteTask f id = ⟨none, ["Task " ++ fmtInt id ++ " not found"]⟩ ∧
      ∀ w, commit f (deleteTask f id) w = f) ∧
    (∀ a b c : Task, a.ID = 1 → b.ID = 2 → c.ID = 3 →
      (deleteTask (.json [a, b, c]) 2).saved = some [a, c] ∧
      (listTasks (.json [a, c]) "").out = [taskLine a, taskLine c]) := by
  refine ⟨?_, ?_, ?_⟩
  · intro h
    obtain ⟨pre, t, post, h1, h2, h3, h4⟩ := indexOfID_isSome h
    have hr : deleteTask f id = ⟨some (pre ++ post), ["Task " ++ fmtInt id ++ " deleted"]⟩ := by
      unfold stored at h1 h2
      simp only [deleteTask, h2]
      rw [h1, take_drop_at]
      simp
    refine ⟨pre, t, post, h1, h3, h4, hr, ?_, ?_⟩
    · rw [hr]
      rfl
    · intro hnd u hu
      rw [h1] at hnd
      simp only [List.map_append, List.map_cons] at hnd
      have hnd2 := List.nodup_append.1 hnd
      rcases List.mem_append.1 hu with hu | hu
      · exact h4 u hu
      · intro hid
        have := (List.nodup_cons.1 hnd2.2.1).1
        apply this
        rw [h3, ← hid]
        exact List.mem_map_of_mem _ hu
  · intro h
    have hn := indexOfID_eq_none.2 h
    unfold stored at hn
    have hr : deleteTask f id = ⟨none, ["Task " ++ fmtInt id ++ " not found"]⟩ := by
      simp [deleteTask, hn]
    refine ⟨hr, fun w => commit_none (by rw [hr]) w⟩
  · intro a b c ha hb hc
    simp [deleteTask, listTasks, loadTasks, indexOfID, ha, hb, hc]

/-- C4, an instance: deleting ID 2 from the store with IDs 1, 2, 2 removes the
first task with ID 2 only; deleting ID 9 saves nothing. -/
theorem deleteTask_spec_witness :
    (∃ pre t post, stored (.json [⟨1, "a", "todo", "", ""⟩, ⟨2, "b", "todo", "", ""⟩,
        ⟨2, "c", "done", "", ""⟩]) = pre ++ t :: post ∧ t.ID = 2 ∧ (∀ u ∈ pre, u.ID ≠ 2) ∧
      deleteTask (.json [⟨1, "a", "todo", "", ""⟩, ⟨2, "b", "todo", "", ""⟩,
        ⟨2, "c", "done", "", ""⟩]) 2 = ⟨some (pre ++ post), ["Task " ++ fmtInt 2 ++ " deleted"]⟩ ∧
      stored (commit (.json [⟨1, "a", "todo", "", ""⟩, ⟨2, "b", "todo", "", ""⟩,
        ⟨2, "c", "done", "", ""⟩]) (deleteTask (.json [⟨1, "a", "todo", "", ""⟩,
        ⟨2, "b", "todo", "", ""⟩, ⟨2, "c", "done", "", ""⟩]) 2) .ok) = pre ++ post ∧
      (((stored (.json [⟨1, "a", "todo", "", ""⟩, ⟨2, "b", "todo", "", ""⟩,
        ⟨2, "c", "done", "", ""⟩])).map Task.ID).Nodup → ∀ u ∈ pre ++ post, u.ID ≠ 2)) ∧
    deleteTask (.json [⟨1, "a", "todo", "", ""⟩]) 9 = ⟨none, ["Task 9 not found"]⟩ :=
  ⟨(deleteTask_spec (.json [⟨1, "a", "todo", "", ""⟩, ⟨2, "b", "todo", "", ""⟩,
      ⟨2, "c", "done", "", ""⟩]) 2).1 ⟨⟨2, "b", "todo", "", ""⟩, by decide, rfl⟩,
   ((deleteTask_spec (.json [⟨1, "a", "todo", "", ""⟩]) 9).2.1 (by decide)).1⟩

/-- C5: `updateStatus` with a status other than "todo", "in-progress" and
"done" prints the invalid-status message and calls `saveTasks` on nothing, so
the file, and with it every task's status and updated-timestamp, stays as it
is. -/
theorem updateStatus_invalid (f : File) (id : Int) (status now : String)
    (h : status ≠ "todo" ∧ status ≠ "in-progress" ∧ status ≠ "done") :
    updateStatus f id status now =
      ⟨none, ["Invalid status. Use: todo, in-progress, done"]⟩ ∧
    ∀ w, commit f (updateStatus f id status now) w = f ∧
      stored (commit f (updateStatus f id status now) w) = stored f := by
  obtain ⟨h1, h2, h3⟩ := h
  have hr : updateStatus f id status now =
      ⟨none, ["Invalid status. Use: todo, in-progress, done"]⟩ := by
    simp [updateStatus, validStatuses, Ne.symm h1, Ne.symm h2, Ne.symm h3]
  refine ⟨hr, fun w => ?_⟩
  have hc : commit f (updateStatus f id status now) w = f := commit_none (by rw [hr]) w
  exact ⟨hc, by rw [hc]⟩

/-- C5, an instance: the status "finished" on a store whose task 1 is "todo". -/
theorem updateStatus_invalid_witness :
    updateStatus (.json [⟨1, "a", "todo", "t0", "t0"⟩]) 1 "finished" "t1" =
      ⟨none, ["Invalid status. Use: todo, in-progress, done"]⟩ ∧
    ∀ w, commit (.json [⟨1, "a", "todo", "t0", "t0"⟩])
        (updateStatus (.json [⟨1, "a", "todo", "t0", "t0"⟩]) 1 "finished" "t1") w =
        .json [⟨1, "a", "todo", "t0", "t0"⟩] ∧
      stored (commit (.json [⟨1, "a", "todo", "t0", "t0"⟩])
        (updateStatus (.json [⟨1, "a", "todo", "t0", "t0"⟩]) 1 "finished" "t1") w) =
        stored (.json [⟨1, "a", "todo", "t0", "t0"⟩]) :=
  updateStatus_invalid (.json [⟨1, "a", "todo", "t0", "t0"⟩]) 1 "finished" "t1"
    (by decide)

/-- C6: `updateTask` on a store holding a task with the given ID passes to
`saveTasks` the store in which the first such task has the new description and
updated-timestamp and its old ID, status and created-timestamp, every other
task and the order being as before, and prints "Task <id> updated"; on a store
holding no such task it saves nothing, leaves the file as it is and prints
"Task <id> not found". -/
theorem updateTask_spec (f : File) (id : Int) (description now : String) :
    ((∃ t ∈ stored f, t.ID = id) →
      ∃ pre t post, stored f = pre ++ t :: post ∧ t.ID = id ∧ (∀ u ∈ pre, u.ID ≠ id) ∧
        updateTask f id description now =
          ⟨some (pre ++ ⟨t.ID, description, t.Status, t.CreatedAt, now⟩ :: post),
            ["Task " ++ fmtInt id ++ " updated"]⟩) ∧
    ((∀ t ∈ stored f, t.ID ≠ id) →
      updateTask f id description now = ⟨none, ["Task " ++ fmtInt id ++ " not found"]⟩ ∧
      ∀ w, commit f (updateTask f id description now) w = f) := by
  refine ⟨?_, ?_⟩
  · intro h
    obtain ⟨pre, t, post, h1, h2, h3, h4⟩ := indexOfID_isSome h
    refine ⟨pre, t, post, h1, h3, h4, ?_⟩
    unfold stored at h1 h2
    simp only [updateTask, h2]
    rw [h1, modify_at]
  · intro h
    have hn := indexOfID_eq_none.2 h
    unfold stored at hn
    have hr : updateTask f id description now =
        ⟨none, ["Task " ++ fmtInt id ++ " not found"]⟩ := by
      simp [updateTask, hn]
    refine ⟨hr, fun w => commit_none (by rw [hr]) w⟩

/-- C6, an instance: updating ID 2 in the store with IDs 1, 2, 2, and updating
ID 9 in a store that has no such task. -/
theorem updateTask_spec_witness :
    (∃ pre t post, stored (.json [⟨1, "a", "todo", "t0", "t0"⟩, ⟨2, "b", "done", "t0", "t0"⟩,
        ⟨2, "c", "todo", "t0", "t0"⟩]) = pre ++ t :: post ∧ t.ID = 2 ∧ (∀ u ∈ pre, u.ID ≠ 2) ∧
      updateTask (.json [⟨1, "a", "todo", "t0", "t0"⟩, ⟨2, "b", "done", "t0", "t0"⟩,
        ⟨2, "c", "todo", "t0", "t0"⟩]) 2 "new" "t1" =
          ⟨some (pre ++ ⟨t.ID, "new", t.Status, t.CreatedAt, "t1"⟩ :: post),
            ["Task " ++ fmtInt 2 ++ " updated"]⟩) ∧
    updateTask (.json [⟨1, "a", "todo", "t0", "t0"⟩]) 9 "new" "t1" =
      ⟨none, ["Task 9 not found"]⟩ :=
  ⟨(updateTask_spec (.json [⟨1, "a", "todo", "t0", "t0"⟩, ⟨2, "b", "done", "t0", "t0"⟩,
      ⟨2, "c", "todo", "t0", "t0"⟩]) 2 "new" "t1").1 ⟨⟨2, "b", "done", "t0", "t0"⟩, by decide, rfl⟩,
   ((updateTask_spec (.json [⟨1, "a", "todo", "t0", "t0"⟩]) 9 "new" "t1").2 (by decide)).1⟩

theorem foldl_filter_status (statusFilter : String) (tasks acc : List Task) :
    tasks.foldl (fun filtered task =>
      if task.Status = statusFilter then filtered ++ [task] else filtered) acc =
    acc ++ tasks.filter (fun t => decide (t.Status = statusFilter)) := by
  induction tasks generalizing acc with
  | nil => simp
  | cons t rest ih =>
    by_cases h : t.Status = statusFilter
    · simp [ih, h]
    · simp [ih, h]

/-- The records `listTasks` prints from a non-empty store are the lines of the
stored tasks whose status equals the filter (of all tasks when the filter is
empty), in store order; from an empty store it prints "No tasks found". -/
theorem listTasks_lines (f : File) (statusFilter : String) :
    (stored f ≠ [] →
      (listTasks f statusFilter).out =
        ((stored f).filter
          (fun t => decide (statusFilter = "" ∨ t.Status = statusFilter))).map taskLine) ∧
    (stored f = [] → (listTasks f statusFilter).out = ["No tasks found"]) := by
  unfold stored
  refine ⟨?_, ?_⟩
  · intro h
    have hl : (loadTasks f).1.length ≠ 0 := by
      rwa [Ne, List.length_eq_zero]
    by_cases hs : statusFilter = ""
    · simp [listTasks, hl, hs]
    · simp [listTasks, hl, hs, foldl_filter_status]
  · intro h
    simp [listTasks, h]

/-- C9, evaluated: with the filter "done" on a store whose only task is "todo",
`listTasks` prints nothing at all, while on the empty store the same filter
prints "No tasks found". -/
theorem listTasks_no_match_prints_nothing :
    listTasks (.json [⟨1, "buy milk", "todo", "t0", "t0"⟩]) "done" = ⟨none, []⟩ ∧
    listTasks (.json []) "done" = ⟨none, ["No tasks found"]⟩ := by
  decide

/-! ### The ID invariant of the task store -/

theorem stored_commit (P : List Task → Prop) (f : File) (r : Result) (w : WriteResult)
    (h0 : P []) (hf : P (stored f)) (hs : ∀ ts, r.saved = some ts → P ts) :
    P (stored (commit f r w)) := by
  unfold commit
  cases hr : r.saved with
  | none => simpa using hf
  | some ts =>
    cases w with
    | ok => simpa [stored, loadTasks] using hs ts hr
    | failedKept => simpa using hf
    | failedTruncated => simpa [stored, loadTasks] using h0

theorem map_ID_modify (g : Task → Task) (hg : ∀ t, (g t).ID = t.ID) (tasks : List Task)
    (i : Nat) : (tasks.modify g i).map Task.ID = tasks.map Task.ID := by
  induction tasks generalizing i with
  | nil => cases i <;> simp
  | cons t rest ih =>
    cases i with
    | zero => simp [hg]
    | succ j => simp [ih]

theorem updateTask_saved_ids {f : File} {id : Int} {description now : String} {ts : List Task}
    (h : (updateTask f id description now).saved = some ts) :
    ts.map Task.ID = (stored f).map Task.ID := by
  unfold updateTask at h
  cases hi : indexOfID (loadTasks f).1 id with
  | none => simp [hi] at h
  | some i =>
    simp only [hi, Option.some.injEq] at h
    rw [← h]
    unfold stored
    apply map_ID_modify
    intro t
    rfl

theorem updateStatus_saved_ids {f : File} {id : Int} {status now : String} {ts : List Task}
    (h : (updateStatus f id status now).saved = some ts) :
    ts.map Task.ID = (stored f).map Task.ID := by
  unfold updateStatus at h
  by_cases hv : (!validStatuses.any (fun s => s == status)) = true
  · simp [hv] at h
  · cases hi : indexOfID (loadTasks f).1 id with
    | none => simp [hv, hi] at h
    | some i =>
      simp [hv, hi] at h
      rw [← h]
      unfold stored
      apply map_ID_modify
      intro t
      rfl

theorem deleteTask_saved_ids {f : File} {id : Int} {ts : List Task}
    (h : (deleteTask f id).saved = some ts) :
    (ts.map Task.ID).Sublist ((stored f).map Task.ID) := by
  unfold deleteTask at h
  cases hi : indexOfID (loadTasks f).1 id with
  | none => simp [hi] at h
  | some i =>
    obtain ⟨pre, t, post, h1, h2, -, -⟩ := indexOfID_eq_some hi
    simp only [hi] at h
    rw [h1, ← h2, take_drop_at] at h
    have hts : ts = pre ++ post := by
      split_ifs at h
      simpa using h.symm
    unfold stored
    rw [hts, h1]
    apply List.Sublist.map
    exact List.Sublist.append_left (List.sublist_cons_self t post) pre

theorem getNextID_fresh {tasks : List Task} {n : Int} (hn : 0 ≤ n) (hlt : n < maxInt)
    (h : ∀ t ∈ tasks, 1 ≤ t.ID ∧ t.ID ≤ n) :
    (∀ t ∈ tasks, t.ID < getNextID tasks) ∧ 1 ≤ getNextID tasks ∧ getNextID tasks ≤ n + 1 := by
  unfold getNextID
  by_cases he : tasks.length = 0
  · rw [List.length_eq_zero] at he
    subst he
    simp
    omega
  · rw [if_neg he]
    obtain ⟨h1, h2, h3⟩ := foldl_maxID tasks 0
    have hle : tasks.foldl (fun maxID task => if task.ID > maxID then task.ID else maxID) 0 ≤ n := by
      rcases h3 with h3 | ⟨u, hu, h3⟩
      · rw [h3]; exact hn
      · rw [← h3]; exact (h u hu).2
    simp only []
    rw [wrapInt_of_range (by unfold minInt; omega) (by unfold maxInt at hlt ⊢; omega)]
    refine ⟨fun t ht => ?_, by omega, by omega⟩
    have := h2 t ht
    omega

theorem step_ids (f : File) (x : Op × WriteResult) (n : Int) (hn : 0 ≤ n)
    (hlt : n + (if Op.isAdd x.1 then 1 else 0) ≤ maxInt)
    (hp : ((stored f).map Task.ID).Pairwise (· < ·))
    (hb : ∀ t ∈ stored f, 1 ≤ t.ID ∧ t.ID ≤ n) :
    ((stored (step f x)).map Task.ID).Pairwise (· < ·) ∧
    ∀ t ∈ stored (step f x), 1 ≤ t.ID ∧ t.ID ≤ n + (if Op.isAdd x.1 then 1 else 0) := by
  obtain ⟨op, w⟩ := x
  have hmono : ∀ t ∈ stored f, 1 ≤ t.ID ∧ t.ID ≤ n + (if Op.isAdd op then 1 else 0) := by
    intro t ht
    have := hb t ht
    split_ifs <;> omega
  unfold step
  apply stored_commit (fun ts => (ts.map Task.ID).Pairwise (· < ·) ∧
    ∀ t ∈ ts, 1 ≤ t.ID ∧ t.ID ≤ n + (if Op.isAdd op then 1 else 0))
  · simp
  · exact ⟨hp, hmono⟩
  · intro ts hts
    cases op with
    | add description now =>
      simp only [Op.isAdd, if_true] at hlt hmono ⊢
      obtain ⟨h1, h2, h3⟩ := getNextID_fresh hn (by omega) hb
      simp only [Op.call, addTask, Option.some.injEq] at hts
      subst hts
      refine ⟨?_, ?_⟩
      · rw [List.map_append, List.pairwise_append]
        refine ⟨hp, by simp, ?_⟩
        intro a ha b hb2
        obtain ⟨t, ht, rfl⟩ := List.mem_map.1 ha
        simp only [List.map_cons, List.map_nil, List.mem_singleton] at hb2
        subst hb2
        exact h1 t ht
      · intro t ht
        rcases List.mem_append.1 ht with ht | ht
        · exact hmono t ht
        · simp only [List.mem_singleton] at ht
          subst ht
          exact ⟨h2, h3⟩
    | update id description now =>
      have hids := updateTask_saved_ids hts
      refine ⟨by rw [hids]; exact hp, ?_⟩
      intro t ht
      have hm : t.ID ∈ (stored f).map Task.ID := by
        rw [← hids]; exact List.mem_map_of_mem _ ht
      obtain ⟨u, hu, hue⟩ := List.mem_map.1 hm
      rw [← hue]
      exact hmono u hu
    | delete id =>
      have hsub := deleteTask_saved_ids hts
      refine ⟨hp.sublist hsub, ?_⟩
      intro t ht
      have hm : t.ID ∈ (stored f).map Task.ID := hsub.subset (List.mem_map_of_mem _ ht)
      obtain ⟨u, hu, hue⟩ := List.mem_map.1 hm
      rw [← hue]
      exact hmono u hu
    | status id status now =>
      have hids := updateStatus_saved_ids hts
      refine ⟨by rw [hids]; exact hp, ?_⟩
      intro t ht
      have hm : t.ID ∈ (stored f).map Task.ID := by
        rw [← hids]; exact List.mem_map_of_mem _ ht
      obtain ⟨u, hu, hue⟩ := List.mem_map.1 hm
      rw [← hue]
      exact hmono u hu

theorem countAdds_cons (x : Op × WriteResult) (xs : List (Op × WriteResult)) :
    (countAdds (x :: xs) : Int) = (if Op.isAdd x.1 then 1 else 0) + countAdds xs := by
  unfold countAdds
  by_cases h : Op.isAdd x.1 = true
  · simp [h]; omega
  · simp [h]

theorem run_ids (xs : List (Op × WriteResult)) (f : File) (n : Int) (hn : 0 ≤ n)
    (hlt : n + countAdds xs ≤ maxInt)
    (hp : ((stored f).map Task.ID).Pairwise (· < ·))
    (hb : ∀ t ∈ stored f, 1 ≤ t.ID ∧ t.ID ≤ n) :
    ((stored (run f xs)).map Task.ID).Pairwise (· < ·) ∧
    ∀ t ∈ stored (run f xs), 1 ≤ t.ID ∧ t.ID ≤ n + countAdds xs := by
  induction xs generalizing f n with
  | nil => simpa [run, countAdds] using ⟨hp, hb⟩
  | cons x xs ih =>
    rw [countAdds_cons] at hlt ⊢
    have hc : (0 : Int) ≤ countAdds xs := Int.natCast_nonneg _
    have hs := step_ids f x n hn (by omega) hp hb
    have hn2 : 0 ≤ n + (if Op.isAdd x.1 then 1 else 0) := by split_ifs <;> omega
    have := ih (step f x) (n + (if Op.isAdd x.1 then 1 else 0)) hn2 (by omega) hs.1 hs.2
    simp only [run, List.foldl_cons] at this ⊢
    rw [← add_assoc]
    exact this

/-- C2 (as amended): starting from an empty store (a file that is missing or
holds no task), after every sequence of add, update, delete and status-update
operations (arbitrary arguments, every write succeeding or failing) that
contains at most `2^63 - 1` adds, the IDs of the stored tasks are strictly
increasing in store order, hence pairwise distinct; and when fewer than
`2^63 - 1` adds were made, an add appends a task whose ID is strictly greater
than every ID in the store. -/
theorem ids_strictly_increasing (f0 : File) (xs : List (Op × WriteResult))
    (h0 : stored f0 = []) (h : (countAdds xs : Int) ≤ maxInt) :
    ((stored (run f0 xs)).map Task.ID).Pairwise (· < ·) ∧
    ((stored (run f0 xs)).map Task.ID).Nodup ∧
    ((countAdds xs : Int) < maxInt → ∀ description now : String,
      ∃ newTask : Task,
        (addTask (run f0 xs) description now).saved =
          some (stored (run f0 xs) ++ [newTask]) ∧
        newTask.ID = getNextID (stored (run f0 xs)) ∧
        ∀ t ∈ stored (run f0 xs), t.ID < newTask.ID) := by
  have hr := run_ids xs f0 0 (le_refl 0) (by simpa using h)
    (by simp [h0]) (by simp [h0])
  refine ⟨hr.1, ?_, ?_⟩
  · exact hr.1.imp (fun hab => ne_of_lt hab)
  · intro hlt description now
    have hfresh := getNextID_fresh (Int.natCast_nonneg (countAdds xs)) hlt
      (fun t ht => by simpa using hr.2 t ht)
    exact ⟨_, rfl, rfl, hfresh.1⟩

/-- C2, an instance: two adds, a delete of ID 1, a status update whose write
fails, and another add. -/
theorem ids_strictly_increasing_witness :
    ((stored (run .missing [(.add "a" "t0", .ok), (.add "b" "t1", .ok), (.delete 1, .ok),
      (.status 2 "done" "t2", .failedKept), (.add "c" "t3", .ok)])).map Task.ID).Pairwise
        (· < ·) :=
  (ids_strictly_increasing .missing [(.add "a" "t0", .ok), (.add "b" "t1", .ok),
      (.delete 1, .ok), (.status 2 "done" "t2", .failedKept), (.add "c" "t3", .ok)]
      (by decide) (by decide)).1

theorem step_add_blank (k : Int) (h1 : 1 ≤ k) (h2 : k < maxInt) :
    step (.json [blankTask k]) (.add "" "", .ok) = .json [blankTask k, blankTask (k + 1)] := by
  have hw : wrapInt (k + 1) = k + 1 :=
    wrapInt_of_range (by unfold minInt; omega) (by unfold maxInt at h2 ⊢; omega)
  have hk : k > 0 := by omega
  simp [step, commit, Op.call, addTask, loadTasks, getNextID, blankTask, hk, hw]

theorem step_delete_blank (k : Int) :
    step (.json [blankTask k, blankTask (k + 1)]) (.delete k, .ok) =
      .json [blankTask (k + 1)] := by
  simp [step, commit, Op.call, deleteTask, loadTasks, indexOfID, blankTask]

theorem run_climb (n : Nat) (k : Int) (h1 : 1 ≤ k) (h2 : k + n ≤ maxInt) :
    run (.json [blankTask k]) (climb n k) = .json [blankTask (k + n)] := by
  induction n generalizing k with
  | zero => simp [climb, run]
  | succ n ih =>
    have h3 : k + ((n + 1 : Nat) : Int) = (k + 1) + (n : Int) := by push_cast; ring
    rw [h3] at h2 ⊢
    have hc : (0 : Int) ≤ n := Int.natCast_nonneg _
    have := ih (k + 1) (by omega) h2
    rw [← this]
    simp only [climb, run, List.foldl_cons]
    rw [step_add_blank k h1 (by omega), step_delete_blank]

theorem run_overflowRun (n : Nat) (h : (1 : Int) + n = maxInt) :
    run .missing (overflowRun n) = .json [blankTask maxInt, blankTask minInt] := by
  have h0 : step .missing (.add "" "", .ok) = .json [blankTask 1] := by decide
  have h1 := run_climb n 1 (le_refl 1) (le_of_eq h)
  have h2 : step (.json [blankTask maxInt]) (.add "" "", .ok) =
      .json [blankTask maxInt, blankTask minInt] := by decide
  unfold overflowRun
  unfold run at h1 ⊢
  rw [List.cons_append, List.foldl_cons, List.foldl_append, h0, h1, h]
  simpa using h2

/-- C2 as stated fails on 64-bit integers: after `2^63` adds (each one after
the second following the deletion of the task added two adds before, so that
the store never holds more than two tasks) the last add finds the single ID
`2^63 - 1`, the sum `maxID + 1` wraps around, and the store holds the IDs
`2^63 - 1`, `-2^63` in this order, which is not increasing; one more add
assigns `-2^63` again, and the IDs are no longer distinct. -/
theorem ids_wrap_after_overflow :
    (stored (run .missing (overflowRun (2 ^ 63 - 2)))).map Task.ID =
      [9223372036854775807, -9223372036854775808] ∧
    ¬ ((stored (run .missing (overflowRun (2 ^ 63 - 2)))).map Task.ID).Pairwise (· < ·) ∧
    (stored (run .missing (overflowRun (2 ^ 63 - 2) ++ [(.add "" "", .ok)]))).map Task.ID =
      [9223372036854775807, -9223372036854775808, -9223372036854775808] ∧
    ¬ ((stored (run .missing
      (overflowRun (2 ^ 63 - 2) ++ [(.add "" "", .ok)]))).map Task.ID).Nodup := by
  have h := run_overflowRun (2 ^ 63 - 2) (by decide)
  have h2 : run .missing (overflowRun (2 ^ 63 - 2) ++ [(.add "" "", .ok)]) =
      step (run .missing (overflowRun (2 ^ 63 - 2))) (.add "" "", .ok) := by
    unfold run
    rw [List.foldl_append]
    rfl
  rw [h2, h]
  decide

/-! ### The description of `add` -/

theorem dropLastByte_append_space (acc : String) : dropLastByte (acc ++ " ") = acc := by
  unfold dropLastByte
  have h : (acc ++ " ").data = acc.data ++ [' '] := by
    rw [String.data_append]
  rw [h, List.dropLast_concat]

theorem joinArgs_go (words : List String) (acc : String) :
    dropLastByte (words.foldl (fun description word => description ++ (word ++ " "))
      (acc ++ " ")) = String.intercalate.go acc " " words := by
  induction words generalizing acc with
  | nil => simpa [String.intercalate.go] using dropLastByte_append_space acc
  | cons w rest ih =>
    simp only [List.foldl_cons, String.intercalate.go]
    have h : acc ++ " " ++ (w ++ " ") = (acc ++ " " ++ w) ++ " " := by
      simp [String.append_assoc]
    rw [h]
    exact ih (acc ++ " " ++ w)

/-- The description `main` builds is its words joined by single spaces. -/
theorem joinArgs_eq_intercalate (words : List String) :
    joinArgs words = String.intercalate " " words := by
  cases words with
  | nil => decide
  | cons w rest =>
    unfold joinArgs
    simp only [List.foldl_cons, String.intercalate]
    have h : "" ++ (w ++ " ") = w ++ " " := by simp
    rw [h]
    exact joinArgs_go rest w

theorem main_add (prog : String) (rest : List String) (now : String) (f : File) :
    (rest = [] →
      main (prog :: "add" :: rest) now f = ⟨none, ["Usage: ./task_manager add <description>"]⟩) ∧
    (rest ≠ [] →
      main (prog :: "add" :: rest) now f = addTask f (String.intercalate " " rest) now) := by
  refine ⟨?_, ?_⟩
  · rintro rfl
    simp [main]
  · intro h
    have hl : ¬ (rest.length + 1 + 1 < 3) := by
      have : rest.length ≠ 0 := by rwa [Ne, List.length_eq_zero]
      omega
    simp [main, hl, joinArgs_eq_intercalate]

end TaskManager

/-! ## Properties of the expense tracker -/

namespace ExpenseTracker
open Go

/-- C3, evaluated: from the empty store, two adds, the deletion of ID 1 and a
third add leave two expenses that both have ID 2: the third add numbers its
expense by the length of the store plus one, not by the largest ID plus one. -/
theorem expense_ids_collide :
    (stored (run sampleLib .missing
      [.add "coffee" 350 (2026, 1), .add "lunch" 1200 (2026, 1), .delete 1,
        .add "bus" 280 (2026, 1)])).map Expense.ID = [2, 2] ∧
    ¬ ((stored (run sampleLib .missing
      [.add "coffee" 350 (2026, 1), .add "lunch" 1200 (2026, 1), .delete 1,
        .add "bus" 280 (2026, 1)])).map Expense.ID).Nodup := by
  decide

theorem expense_main_add {F T : Type} (L : Lib F T) (prog : String) (rest : List String) (now : T)
    (f : File F T) (saveErr : Option String) :
    main L (prog :: "add" :: rest) now f saveErr =
      match L.parseAdd rest with
      | .error code => { saved := none, out := [], exit := code }
      | .ok (addDesc, addAmt) => caseAdd L addDesc addAmt now f saveErr := by
  simp [main]

theorem expense_main_summary {F T : Type} (L : Lib F T) (prog : String) (rest : List String) (now : T)
    (f : File F T) (saveErr : Option String) :
    main L (prog :: "summary" :: rest) now f saveErr =
      match L.parseSummary rest with
      | .error code => { saved := none, out := [], exit := code }
      | .ok summaryMonth => caseSummary L summaryMonth now f := by
  simp [main]

/-- An `add` of the expense tracker hands a slice to `saveExpenses` only when
the parsed description is non-empty and the amount is not `<= 0`, and then the
slice is the loaded store with one expense appended. -/
theorem caseAdd_saved {F T : Type} (L : Lib F T) (addDesc : String) (addAmt : F) (now : T)
    (f : File F T) (saveErr : Option String) (expenses : List (Expense F T))
    (h : (caseAdd L addDesc addAmt now f saveErr).saved = some expenses) :
    addDesc ≠ "" ∧ L.leZero addAmt = false ∧ (loadExpenses f).2 = none ∧
      expenses = stored f ++
        [⟨wrapInt (((stored f).length : Int) + 1), now, addDesc, addAmt⟩] := by
  unfold caseAdd at h
  by_cases hd : addDesc = ""
  · simp [hd] at h
  · cases hz : L.leZero addAmt with
    | true => simp [hz] at h
    | false =>
      simp only [hd, hz, decide_False, Bool.or_self, Bool.false_eq_true, if_false] at h
      rcases hl : loadExpenses f with ⟨es, _ | err⟩
      · rw [hl] at h
        refine ⟨hd, rfl, rfl, ?_⟩
        unfold stored
        rw [hl]
        cases saveErr <;> simpa using h.symm
      · rw [hl] at h
        simp at h

/-- C8 (as amended): a `summary` whose `--month` value is greater than 12 exits
with code 1, saves nothing and prints a single error line and no total: the
line "Error: month must be between 1 and 12" when the store loads, the load
error otherwise. The value 0, the default of the flag, selects the total of
all expenses. -/
theorem summary_month_spec {F T : Type} (L : Lib F T) (prog : String) (rest : List String)
    (now : T) (f : File F T) (saveErr : Option String) (m : Int)
    (hparse : L.parseSummary rest = .ok m) :
    (12 < m →
      (main L (prog :: "summary" :: rest) now f saveErr).exit = 1 ∧
      (main L (prog :: "summary" :: rest) now f saveErr).saved = none ∧
      ((loadExpenses f).2 = none →
        (main L (prog :: "summary" :: rest) now f saveErr).out =
          ["Error: month must be between 1 and 12"]) ∧
      (∀ err, (loadExpenses f).2 = some err →
        (main L (prog :: "summary" :: rest) now f saveErr).out =
          ["Error loading expenses: " ++ err])) ∧
    (m = 0 → (loadExpenses f).2 = none →
      main L (prog :: "summary" :: rest) now f saveErr =
        ⟨none, ["Total expenses: $" ++
          L.fmt2 ((stored f).foldl (fun total e => L.add total e.Amount) L.zero)], 0⟩) := by
  rw [expense_main_summary, hparse]
  simp only []
  unfold caseSummary stored
  rcases hl : loadExpenses f with ⟨es, _ | err⟩
  · refine ⟨?_, ?_⟩
    · intro hm
      have h0 : m > 0 := by omega
      simp [h0, hm]
    · intro hm _
      subst hm
      simp
  · refine ⟨?_, ?_⟩
    · intro _
      simp
    · intro _ h
      simp at h

/-- C8, an instance: `summary --month 13` on a store holding one expense. -/
theorem summary_month_spec_witness :
    (main sampleLib ["expense-tracker", "summary", "--month", "13"] (2026, 1)
        (.json [⟨1, (2026, 3), "coffee", 1050⟩]) none).exit = 1 ∧
    (main sampleLib ["expense-tracker", "summary", "--month", "13"] (2026, 1)
        (.json [⟨1, (2026, 3), "coffee", 1050⟩]) none).out =
      ["Error: month must be between 1 and 12"] :=
  ⟨((summary_month_spec sampleLib "expense-tracker" ["--month", "13"] (2026, 1)
      (.json [⟨1, (2026, 3), "coffee", 1050⟩]) none 13 rfl).1 (by decide)).1,
   ((summary_month_spec sampleLib "expense-tracker" ["--month", "13"] (2026, 1)
      (.json [⟨1, (2026, 3), "coffee", 1050⟩]) none 13 rfl).1 (by decide)).2.2.1
      (by decide)⟩

/-- C8 as stated fails at the month 0, which is less than 1: `summary --month 0`
reports no error, prints the total of all expenses and exits with code 0. -/
theorem summary_month_zero_prints_total :
    main sampleLib ["expense-tracker", "summary", "--month", "0"] (2026, 1)
      (.json [⟨1, (2026, 3), "coffee", 1050⟩]) none =
      ⟨none, ["Total expenses: $10.50"], 0⟩ := by
  decide

end ExpenseTracker

/-! ## The description required by `add`, in both programs -/

/-- C7 (as amended): in the task manager an `add` without a description
argument prints the usage line and saves nothing, and an `add` with description
arguments appends a task whose description is the arguments joined by single
spaces, whatever they are; in the expense tracker an `add` saves a store only
if the parsed description is non-empty (and the amount not `<= 0`), the saved
store being the loaded one with one expense appended, and an `add` whose
parsed description is empty prints the error, exits with code 1 and saves
nothing, whatever the file is. -/
theorem add_description_spec :
    (∀ (prog : String) (rest : List String) (now : String) (f : TaskManager.File),
      (rest = [] →
        TaskManager.main (prog :: "add" :: rest) now f =
          ⟨none, ["Usage: ./task_manager add <description>"]⟩) ∧
      (rest ≠ [] →
        (TaskManager.main (prog :: "add" :: rest) now f).saved =
          some (TaskManager.stored f ++
            [⟨TaskManager.getNextID (TaskManager.stored f), String.intercalate " " rest,
              "todo", now, now⟩]))) ∧
    (∀ (F T : Type) (L : ExpenseTracker.Lib F T) (prog : String) (rest : List String) (now : T)
      (f : ExpenseTracker.File F T) (saveErr : Option String),
      (∀ expenses, (ExpenseTracker.main L (prog :: "add" :: rest) now f saveErr).saved =
          some expenses →
        ∃ d a, L.parseAdd rest = .ok (d, a) ∧ d ≠ "" ∧ L.leZero a = false ∧
          expenses = ExpenseTracker.stored f ++
            [⟨Go.wrapInt (((ExpenseTracker.stored f).length : Int) + 1), now, d, a⟩]) ∧
      (∀ a, L.parseAdd rest = .ok ("", a) →
        ExpenseTracker.main L (prog :: "add" :: rest) now f saveErr =
          ⟨none, ["Error: description and positive amount are required"], 1⟩)) := by
  refine ⟨?_, ?_⟩
  · intro prog rest now f
    refine ⟨(TaskManager.main_add prog rest now f).1, ?_⟩
    intro h
    rw [(TaskManager.main_add prog rest now f).2 h]
    rfl
  · intro F T L prog rest now f saveErr
    rw [ExpenseTracker.expense_main_add]
    refine ⟨?_, ?_⟩
    · intro expenses h
      cases hp : L.parseAdd rest with
      | error code => simp [hp] at h
      | ok v =>
        obtain ⟨d, a⟩ := v
        rw [hp] at h
        obtain ⟨h1, h2, -, h4⟩ := ExpenseTracker.caseAdd_saved L d a now f saveErr expenses h
        exact ⟨d, a, rfl, h1, h2, h4⟩
    · intro a hp
      rw [hp]
      simp [ExpenseTracker.caseAdd]

/-- C7, instances: `add buy milk` on the empty task store, and an expense
`add` with the empty description. -/
theorem add_description_spec_witness :
    (TaskManager.main ["task_manager", "add", "buy", "milk"] "t0" .missing).saved =
      some [⟨1, "buy milk", "todo", "t0", "t0"⟩] ∧
    ExpenseTracker.main ExpenseTracker.sampleLib
        ["expense-tracker", "add", "--description", "", "--amount", "5"] (2026, 1) .missing none =
      ⟨none, ["Error: description and positive amount are required"], 1⟩ :=
  ⟨(add_description_spec.1 "task_manager" ["buy", "milk"] "t0" .missing).2 (by decide),
   (add_description_spec.2 Int (Int × Int) ExpenseTracker.sampleLib "expense-tracker"
      ["--description", "", "--amount", "5"] (2026, 1) .missing none).2 5 rfl⟩

/-- C7 as stated fails in the task manager: `add ""` has the empty string as
its description and appends a task to the store. -/
theorem add_empty_description_appends :
    TaskManager.joinArgs [""] = "" ∧
    TaskManager.main ["task_manager", "add", ""] "t0" .missing =
      ⟨some [⟨1, "", "todo", "t0", "t0"⟩], ["Task added with ID: 1"]⟩ := by
  decide

/-! ## Properties of the GitHub activity viewer -/

namespace GithubActivity
open Go

theorem display_append (es : List Event) (e : Event) :
    display (es ++ [e]) = display es ++ eventLines e := by
  simp [display, List.foldl_append]

/-- C10 (as amended): the output for a sequence of events is built in event
order, each event adding the line its type selects: a `PushEvent` with `n > 0`
commits on repository `r` adds "Pushed n commits to r", an `IssuesEvent` adds
"Opened a new issue in r", a `WatchEvent` adds "Starred r", any other type `t`
adds "Performed t on r"; a `PushEvent` with no commits adds nothing. -/
theorem display_spec :
    display [] = [] ∧
    ∀ (es : List Event) (e : Event),
      (e.EventType = "PushEvent" → e.Payload.Commits ≠ [] →
        display (es ++ [e]) = display es ++
          ["Pushed " ++ fmtInt e.Payload.Commits.length ++ " commits to " ++ e.Repo.Name]) ∧
      (e.EventType = "PushEvent" → e.Payload.Commits = [] →
        display (es ++ [e]) = display es) ∧
      (e.EventType = "IssuesEvent" →
        display (es ++ [e]) = display es ++ ["Opened a new issue in " ++ e.Repo.Name]) ∧
      (e.EventType = "WatchEvent" →
        display (es ++ [e]) = display es ++ ["Starred " ++ e.Repo.Name]) ∧
      (e.EventType ≠ "PushEvent" → e.EventType ≠ "IssuesEvent" → e.EventType ≠ "WatchEvent" →
        display (es ++ [e]) = display es ++
          ["Performed " ++ e.EventType ++ " on " ++ e.Repo.Name]) := by
  refine ⟨rfl, ?_⟩
  intro es e
  rw [display_append]
  refine ⟨?_, ?_, ?_, ?_, ?_⟩
  · intro h hc
    have hpos : (0 : Int) < (e.Payload.Commits.length : Int) := by
      have := List.length_pos.2 hc
      omega
    simp [eventLines, h, hpos]
  · intro h hc
    simp [eventLines, h, hc]
  · intro h
    simp [eventLines, h]
  · intro h
    simp [eventLines, h]
  · intro h1 h2 h3
    simp [eventLines, h1, h2, h3]

/-- C10, an instance: a `PushEvent` with two commits to `repo/x` after a
`ForkEvent`. -/
theorem display_spec_witness :
    display ([⟨"ForkEvent", ⟨"repo/y"⟩, ⟨[]⟩⟩] ++
        [⟨"PushEvent", ⟨"repo/x"⟩, ⟨[⟨"fix"⟩, ⟨"test"⟩]⟩⟩]) =
      display [⟨"ForkEvent", ⟨"repo/y"⟩, ⟨[]⟩⟩] ++ ["Pushed 2 commits to repo/x"] :=
  (display_spec.2 [⟨"ForkEvent", ⟨"repo/y"⟩, ⟨[]⟩⟩]
    ⟨"PushEvent", ⟨"repo/x"⟩, ⟨[⟨"fix"⟩, ⟨"test"⟩]⟩⟩).1 (by decide) (by decide)

/-- C10 as stated fails: a `PushEvent` that carries no commits yields no line
(not "Pushed 0 commits to repo/x"), so the output for this one event is empty. -/
theorem push_without_commits_prints_nothing :
    display [⟨"PushEvent", ⟨"repo/x"⟩, ⟨[]⟩⟩] = [] ∧
    main ["github-activity", "octocat"] (.events [⟨"PushEvent", ⟨"repo/x"⟩, ⟨[]⟩⟩]) = ([], 0) := by
  decide

end GithubActivity
